import Mathlib

/-!
Verification development for the cktext translation store (src/text.cpp,
src/text.h, src/var.hpp).

The C++ code is shallowly embedded: std::string contents become byte lists
(`Str`), std::map becomes an association list kept sorted by the byte-wise
lexicographic order that std::string uses, `const char*` arguments and
results become `Option Str` (`none` models a null pointer), and the binary
reader becomes an explicit position over a byte list.  Machine integers are
modelled as `Int`/`Nat` with explicit reductions modulo 2^32 or 2^8 exactly
where the C++ types truncate.
-/

namespace CkText

/-- Byte strings: the contents of a std::string / the bytes behind a
`const char*`. -/
abbrev Str := List Nat

/-- Byte-wise lexicographic strict order, as used by std::map<std::string,_>
(std::string's operator<). -/
def strLt : Str → Str → Bool
  | [], [] => false
  | [], _ :: _ => true
  | _ :: _, [] => false
  | a :: as, b :: bs => if a < b then true else if b < a then false else strLt as bs

/-- `const char*` conversion to std::string: the bytes up to the first NUL.
Applied wherever the C++ passes a stored byte string through `c_str()` into
a `const char*` parameter. -/
def cstr (s : Str) : Str := s.takeWhile (fun b => b ≠ 0)

/-- An association list ordered by `strLt` on the keys models std::map. -/
abbrev Map (α : Type) := List (Str × α)

/-- std::map::find. -/
def mfind {α : Type} : Map α → Str → Option α
  | [], _ => none
  | (k', v) :: rest, k => if k = k' then some v else mfind rest k

/-- std::map insert-or-assign (also models `operator[]` followed by
assignment): keeps the list sorted when the input is sorted. -/
def minsert {α : Type} (k : Str) (v : α) : Map α → Map α
  | [] => [(k, v)]
  | (k', v') :: rest =>
    if strLt k k' then (k, v) :: (k', v') :: rest
    else if k = k' then (k, v) :: rest
    else (k', v') :: minsert k v rest

/-- std::map::erase by key. -/
def merase {α : Type} (k : Str) (m : Map α) : Map α :=
  m.filter (fun e => e.1 ≠ k)

/-- The key sequence of a map. -/
def keys {α : Type} (m : Map α) : List Str := m.map Prod.fst

/-- Keys strictly ascending in `strLt`: the std::map representation
invariant. -/
abbrev keysSorted {α : Type} (m : Map α) : Prop :=
  List.Pairwise (fun a b : Str × α => strLt a.1 b.1 = true) m

/-! ## var (src/var.hpp)

`var` wraps std::variant<bool,int,float,std::string>.  There is no
monostate alternative: a default-constructed `var` value-initialises the
first alternative, i.e. it holds `bool false`.  `float` payloads are only
ever copied bytewise by this program, so they are modelled by their 32-bit
representation. -/

inductive var : Type
  | vbool (b : Bool)
  | vint (n : Int)
  | vfloat (bits : Nat)
  | vstr (s : Str)
deriving DecidableEq, Repr

/-- Enum values of var::Type: TP_NUL = 0, TP_BOOL = 1, TP_INT = 2,
TP_FLOAT = 3, TP_STRING = 4. -/
def var.type : var → Nat
  | .vbool _ => 1
  | .vint _ => 2
  | .vfloat _ => 3
  | .vstr _ => 4

/-- `var::valid()` is `!d.valueless_by_exception()`; without exceptions a
std::variant is never valueless, so this is constantly true. -/
def var.valid (_ : var) : Bool := true

/-- A default-constructed `var` (`var() = default`): std::variant
value-initialises its first alternative, `bool`, to `false`. -/
def varDefault : var := .vbool false

/-! ## Text::Property (src/text.cpp lines 895-960) -/

/-- The Property table: std::map<std::string, var>. -/
abbrev Property := Map var

/-- Text::Property::get — returns the stored value, or a default-constructed
`var` when the name is null or absent. -/
def Property.get (t : Property) (name : Option Str) : var :=
  match name with
  | none => varDefault
  | some n =>
    match mfind t n with
    | none => varDefault
    | some v => v

/-- Text::Property::set — rejects a null name or invalid value, a name of
length outside 1..64, and a String payload of length outside 1..255;
otherwise inserts or overwrites. -/
def Property.set (t : Property) (name : Option Str) (value : var) : Property :=
  match name with
  | none => t
  | some n =>
    if ¬ value.valid then t
    else if n.length < 1 ∨ n.length > 64 then t
    else
      match value with
      | .vstr s => if s.length < 1 ∨ s.length > 255 then t else minsert n value t
      | _ => minsert n value t

/-! ## Text::Group (src/text.h lines 65-102, src/text.cpp lines 809-890) -/

structure Group : Type where
  _prop : Property
  _map : Map Str
  _priority : Nat
deriving DecidableEq, Repr

/-- A freshly constructed Group: empty maps, priority 100 (the member
initialiser of `_priority`). -/
def emptyGroup : Group := ⟨[], [], 100⟩

/-- Text::Group::u8 — the stored translation if src is present and
non-empty, `def` if src is present with an empty translation, null if src
is absent. -/
def Group.u8 (g : Group) (src : Str) (dflt : Option Str) : Option Str :=
  match mfind g._map src with
  | none => none
  | some trs => if trs = [] then dflt else some trs

/-- Text::Group::set — rejects null src or trs, src length outside
1..10485760 and trs length above 10485760; otherwise inserts/overwrites and
returns the stored translation. -/
def Group.set (g : Group) (src trs : Option Str) : Group × Option Str :=
  match src, trs with
  | none, _ => (g, none)
  | _, none => (g, none)
  | some s, some t =>
    if s.length < 1 ∨ s.length > 10485760 ∨ t.length > 10485760 then (g, none)
    else ({ g with _map := minsert s t g._map }, some t)

/-- Text::Group::empty — only looks at the translation map. -/
def Group.empty (g : Group) : Bool := g._map.isEmpty

/-- Text::Group::clear — empties both maps and resets the priority to
100. -/
def Group.clear (_ : Group) : Group := emptyGroup

/-! ## UTF-8 decoding (Text::u8to32, src/text.cpp lines 308-340)

The C++ loop walks the bytes with an index; each multi-byte branch requires
enough remaining input.  When a multi-byte lead appears too close to the end
the loop stops (in C++ the bound tests underflow for very short inputs and
the code can read past the buffer — undefined behaviour; the model simply
stops the scan, which is also what the remaining well-defined cases do). -/

def u8to32 : Str → List Nat
  | [] => []
  | c :: rest =>
    if c < 0x7F then c :: u8to32 rest
    else if c < 0xE0 then
      match rest with
      | b1 :: rest1 => (((c ^^^ 0xC0) <<< 6) ||| (b1 ^^^ 0x80)) :: u8to32 rest1
      | [] => []
    else if c < 0xF0 then
      match rest with
      | b1 :: b2 :: rest2 =>
        (((c ^^^ 0xE0) <<< 12) ||| ((b1 ^^^ 0x80) <<< 6) ||| (b2 ^^^ 0x80)) :: u8to32 rest2
      | _ => []
    else
      match rest with
      | b1 :: b2 :: b3 :: rest3 =>
        (((c ^^^ 0xF0) <<< 18) ||| ((b1 ^^^ 0x80) <<< 12) ||| ((b2 ^^^ 0x80) <<< 6)
          ||| (b3 ^^^ 0x80)) :: u8to32 rest3
      | _ => []

/-! ## Text (src/text.h lines 37-173, src/text.cpp) -/

structure Text : Type where
  _prop : Property
  _map : Map Group
  _sorted : List Group
deriving DecidableEq, Repr

/-- Text::Text() — inserts the unnamed default group (`_map[""]`); the
sorted cache starts empty (the constructor does not call update_sorted). -/
def freshText : Text := ⟨[], [([], emptyGroup)], []⟩

/-- Text::update_sorted — rebuilds the cache, sorted by priority descending
(std::sort with `a->_priority > b->_priority`, ties broken by object
address; the model uses a stable sort, one of the orders the unspecified
address tie-break can produce). -/
def sortGroups (gs : List Group) : List Group :=
  List.insertionSort (fun a b : Group => b._priority ≤ a._priority) gs

def Text.update_sorted (d : Text) : Text :=
  { d with _sorted := sortGroups (d._map.map Prod.snd) }

/-- The loop body of Text::u8 over the sorted cache.  Each group is queried
with the shared empty-string marker as `def`; a returned pointer equal to
the marker means "source present, translation empty" and yields the
caller's `dflt`, any other non-null pointer is the translation, and a null
answer moves on to the next group. -/
def u8core : List Group → Str → Option Str → Option Str
  | [], _, _ => none
  | g :: rest, src, dflt =>
    match mfind g._map src with
    | none => u8core rest src dflt
    | some trs => if trs = [] then dflt else some trs

/-- Text::u8 — null src short-circuits to null before any group is
consulted. -/
def Text.u8 (d : Text) (src dflt : Option Str) : Option Str :=
  match src with
  | none => none
  | some s => u8core d._sorted s dflt

/-- The loop body of Text::u32: same resolution as u8core, but the winning
byte string (the translation, or `dflt` when the translation is empty) is
converted with u8to32.  When the translation is empty and `dflt` is null
the C++ takes strlen of a null pointer (undefined behaviour); the model
returns null there. -/
def u32core : List Group → Str → Option Str → Option (List Nat)
  | [], _, _ => none
  | g :: rest, src, dflt =>
    match mfind g._map src with
    | none => u32core rest src dflt
    | some trs => if trs = [] then dflt.map u8to32 else some (u8to32 trs)

/-- Text::u32 — null src short-circuits to null before any group is
consulted. -/
def Text.u32 (d : Text) (src dflt : Option Str) : Option (List Nat) :=
  match src with
  | none => none
  | some s => u32core d._sorted s dflt

/-- Text::empty — true when at most one group exists and the first group
has no translations (the C++ dereferences `begin()` unconditionally, which
on the never-occurring empty map would be undefined; the model uses the
head with an empty default). -/
def Text.empty (d : Text) : Bool :=
  decide (d._map.length < 2) && (d._map.headD ([], emptyGroup)).2._map.isEmpty

/-- The erase loop of Text::clear: drop groups while more than one remains,
skipping empty-named ones.  With the default group present this keeps
exactly the empty-named entries; without it the last entry survives. -/
def clearLoop (m : Map Group) : Map Group :=
  if ([] : Str) ∈ keys m then m.filter (fun e => e.1 = ([] : Str))
  else
    match m.getLast? with
    | none => []
    | some e => [e]

/-- Text::clear — clears the document properties, erases every group but
the default, clears the surviving first group, and rebuilds the sorted
cache. -/
def Text.clear (d : Text) : Text :=
  Text.update_sorted
    { d with
      _prop := []
      _map :=
        match clearLoop d._map with
        | [] => []
        | (k, g) :: rest => (k, g.clear) :: rest }

/-- Text::remove(const char*) — null is ignored (without touching the
cache); a non-empty name is erased; the empty name only clears the default
group in place. -/
def Text.remove (d : Text) (group : Option Str) : Text :=
  match group with
  | none => d
  | some name =>
    if name.length > 0 then
      Text.update_sorted { d with _map := merase name d._map }
    else
      Text.update_sorted
        { d with _map :=
            match mfind d._map name with
            | none => d._map
            | some g => minsert name g.clear d._map }

/-- Text::remove(iterator) — erases the entry the iterator designates (a
valid iterator designates a present key) and rebuilds the cache. -/
def Text.removeIter (d : Text) (k : Str) : Text :=
  Text.update_sorted { d with _map := merase k d._map }

/-- Text::rename — extracts the old binding, rekeys it, and restores the
original binding when the new key already exists. -/
def Text.rename (d : Text) (oldName newName : Str) : Text × Bool :=
  match mfind d._map oldName with
  | none => (d, false)
  | some g =>
    let rest := merase oldName d._map
    if (mfind rest newName).isSome then (d, false)
    else ({ d with _map := minsert newName g rest }, true)

/-- The priority derivation shared by Text::insert and load: a "priority"
property of type Int overwrites the default, converted through the
`uint32_t _priority` member (reduction modulo 2^32); the following
`if (_priority < 0) _priority = 0;` compares an unsigned value and never
fires. -/
def prioFrom (p : Property) (start : Nat) : Nat :=
  let pr :=
    let v := Property.get p (some [112, 114, 105, 111, 114, 105, 116, 121])
    match v with
    | .vint n => ((n % 4294967296).toNat)
    | _ => start
  if pr < 0 then 0 else pr

/-- Text::insert — rejects a null name, a name of length outside 1..64 and
a duplicate name; otherwise creates the group with the supplied properties
and the derived priority and rebuilds the cache. -/
def Text.insert (d : Text) (group : Option Str) (prop : Property) :
    Text × Option Group :=
  match group with
  | none => (d, none)
  | some name =>
    if name.length < 1 ∨ name.length > 64 then (d, none)
    else if (mfind d._map name).isSome then (d, none)
    else
      let g : Group := { _prop := prop, _map := [], _priority := prioFrom prop 100 }
      (Text.update_sorted { d with _map := minsert name g d._map }, some g)

/-! ## Codec: writer (src/text.cpp lines 250-301 and 515-624)

`save` is modelled for `compress = false`: the emitted byte stream.  (With
compression the same stream, minus the 4 header bytes, is additionally run
through the external lz4 frame compressor.) -/

/-- Low 4 bytes of a value, little-endian; what writing a 32-bit quantity
(or the low half of a size_t) emits. -/
def le4 (m : Nat) : List Nat :=
  [m % 256, m / 256 % 256, m / 65536 % 256, m / 16777216 % 256]

/-- The 4 bytes a C++ `int` write emits (two's complement, little-endian). -/
def int32Bytes (n : Int) : List Nat := le4 ((n % 4294967296).toNat)

/-- Bytes of one attribute payload. -/
def valBytes : var → List Nat
  | .vbool b => [if b then 1 else 0]
  | .vint n => int32Bytes n
  | .vfloat bits => le4 (bits % 4294967296)
  | .vstr s => (s.length % 256) :: s

/-- Bytes of one attribute record, as the writer emits it: entries whose
type is TP_NUL (impossible for a constructed var, the check is dead) or
whose name is empty or longer than 64 bytes are silently skipped. -/
def entryBytes (k : Str) (v : var) : List Nat :=
  if v.type = 0 then []
  else if k.length = 0 ∨ k.length > 64 then []
  else v.type :: (k.length % 256) :: k ++ valBytes v

/-- `write(ck::writer&, const Text::Property&)` — the Property table's
record stream, entries in map order. -/
def write : Property → List Nat
  | [] => []
  | (k, v) :: rest => entryBytes k v ++ write rest

/-- The translation items of one group: 4-byte length + bytes for source
and translation. -/
def itemsBytes : Map Str → List Nat
  | [] => []
  | (s, t) :: rest =>
    int32Bytes s.length ++ s ++ int32Bytes t.length ++ t ++ itemsBytes rest

/-- One GroupRecord: 1-byte name length (low byte of the size), name bytes,
attribute count, item count, attribute records, item records. -/
def groupBytes (k : Str) (g : Group) : List Nat :=
  (k.length % 256) :: k ++ int32Bytes g._prop.length ++ int32Bytes g._map.length
    ++ write g._prop ++ itemsBytes g._map

def groupsBytes : Map Group → List Nat
  | [] => []
  | (k, g) :: rest => groupBytes k g ++ groupsBytes rest

/-- Text::save with compress = false: magic "CKT", flag byte 0, attribute
count, group count (0 when the document is `empty()`, in which case no
group records follow and the default group's own property table is not
written), document attribute records, group records. -/
def save (d : Text) : List Nat :=
  [67, 75, 84, 0] ++ int32Bytes d._prop.length ++
    (if d.empty then int32Bytes 0 ++ write d._prop
     else int32Bytes d._map.length ++ write d._prop ++ groupsBytes d._map)

/-! ## Codec: reader (src/text.cpp lines 42-96, 155-248, 372-513)

The byte-stream reader (the external `bio`/lz4xx adapter) is modelled as a
position over a byte list: a read returns up to `capacity` bytes and
advances by the number returned; a negative offset moves the position
back.  A read at end-of-stream returns fewer bytes and leaves the
destination's remaining bytes at their prior contents, which the models
below reproduce explicitly. -/

structure RdSt : Type where
  data : List Nat
  pos : Nat
deriving DecidableEq, Repr

/-- The unread suffix. -/
def RdSt.rem (st : RdSt) : List Nat := st.data.drop st.pos

/-- Read up to `n` bytes. -/
def RdSt.readN (st : RdSt) (n : Nat) : List Nat × RdSt :=
  let raw := (st.data.drop st.pos).take n
  (raw, ⟨st.data, st.pos + raw.length⟩)

/-- `rd.offset(-k)`: rewind the stream by k bytes. -/
def RdSt.rewind (st : RdSt) (k : Nat) : RdSt := ⟨st.data, st.pos - k⟩

/-- Little-endian value of a byte list. -/
def leVal (bs : List Nat) : Nat := bs.foldr (fun b acc => b + 256 * acc) 0

/-- The signed 32-bit value with a given low-word representation. -/
def asInt32 (m : Nat) : Int :=
  if m % 4294967296 ≥ 2147483648 then (m % 4294967296 : Int) - 4294967296
  else (m % 4294967296 : Int)

/-- `int v = 0; rd.read((uint8_t*)&v, k)` for k ≤ 4: bytes fill the value
from the low end, missing bytes stay 0. -/
def readI (st : RdSt) (k : Nat) : Int × RdSt :=
  (asInt32 (leVal (st.readN k).1), (st.readN k).2)

/-- Same, but the raw (unsigned) bit pattern — used for the float payload,
which this program only ever copies bytewise. -/
def readU (st : RdSt) (k : Nat) : Nat × RdSt :=
  (leVal (st.readN k).1, (st.readN k).2)

/-- `out.resize(n)` followed by reading `n` bytes into `out.data()`:
resize keeps the first `min n |prev|` bytes and NUL-pads, then the read
overwrites as many leading bytes as the stream still has. -/
def readInto (st : RdSt) (n : Nat) (prev : Str) : Str × RdSt :=
  ((st.readN n).1
      ++ ((prev.take n ++ List.replicate (n - prev.length) 0).drop (st.readN n).1.length),
    (st.readN n).2)

/-- `read_str(ireader&, std::string&)` (lines 155-174): 4-byte length,
validated against 1..10485760; on a bad length the function returns 0 and
leaves `out` untouched; otherwise the bytes are read in 1024-byte chunks
(equivalent to one bounded read). -/
def read_str (st : RdSt) (prev : Str) : Int × Str × RdSt :=
  if (readI st 4).1 < 1 ∨ (readI st 4).1 > 10485760 then (0, prev, (readI st 4).2)
  else
    ((readI st 4).1, readInto (readI st 4).2 (readI st 4).1.toNat prev)

/-- The local `read_str` lambda of `read` (lines 178-186): 1-byte length
validated against 1..maxSize, -1 on failure, reading into a fresh string. -/
def read_str1 (st : RdSt) (maxSize : Nat) : Int × Str × RdSt :=
  if (readI st 1).1 < 1 ∨ (readI st 1).1 > (maxSize : Int) then (-1, [], (readI st 1).2)
  else
    ((readI st 1).1, readInto (readI st 1).2 (readI st 1).1.toNat [])

/-- `read(ireader&, Text::Property&)` (lines 176-248): one AttributeRecord.
An unknown type tag rewinds 1 byte and fails; a bad name length rewinds 2
bytes and fails.  In the String case the C++ stores the (possibly -1)
result in a `uint8_t`, so the subsequent `sz_str < 0` test never fires: a
zero string-length byte leaves `v` empty, `set` silently rejects it, and
the function still returns true. -/
def read (st : RdSt) (o : Property) : Bool × RdSt × Property :=
  match readI st 1 with
  | (ty, st1) =>
    if ty < 1 ∨ ty > 4 then (false, st1.rewind 1, o)
    else
      match read_str1 st1 64 with
      | (szName, name, st2) =>
        if szName < 0 then (false, st2.rewind 2, o)
        else if ty = 1 then
          (true, (readI st2 1).2, o.set (some (cstr name)) (.vbool ((readI st2 1).1 != 0)))
        else if ty = 2 then
          (true, (readI st2 4).2, o.set (some (cstr name)) (.vint (readI st2 4).1))
        else if ty = 3 then
          (true, (readU st2 4).2, o.set (some (cstr name)) (.vfloat (readU st2 4).1))
        else
          match read_str1 st2 255 with
          | (r, v, st3) =>
            if (((r % 256).toNat : Int)) < 0 then (false, st3.rewind (3 + szName.toNat), o)
            else (true, st3, o.set (some (cstr name)) (.vstr v))

/-- The `read_attr` lambda of `load` (lines 397-408): clear the table, read
`n` records, clear again and fail if any record fails. -/
def read_attr : Nat → RdSt → Property → Bool × RdSt × Property
  | 0, st, attr => (true, st, attr)
  | n + 1, st, attr =>
    match read st attr with
    | (true, st1, attr1) => read_attr n st1 attr1
    | (false, st1, _) => (false, st1, [])

/-- The translation-item loop of `load` (lines 461-471).  The Bool result
is the error flag: a bad source length sets it and breaks, leaving the
items read so far in the map.  `map[src]` default-inserts an empty slot
whose prior contents survive a failed translation read (which is how a
0-length translation is stored).  The trailing `Str` threads the reused
`src` local of the C++ through the loop. -/
def itemLoop : Nat → RdSt → Map Str → Str → Bool × RdSt × Map Str × Str
  | 0, st, m, srcPrev => (false, st, m, srcPrev)
  | j + 1, st, m, srcPrev =>
    let rs := read_str st srcPrev
    if rs.1 < 1 then (true, rs.2.2, m, rs.2.1)
    else
      let src := rs.2.1
      let slot := (mfind m src).getD []
      let rt := read_str rs.2.2 slot
      itemLoop j rt.2.2 (minsert src rt.2.1 m) src

/-- Merging a loaded group into an existing one of the same name (lines
477-483): only the translation items are copied, through Group::set (so
through `c_str()`); the existing group's properties and priority stay. -/
def mergeItems (g0 : Group) (items : Map Str) : Group :=
  items.foldl (fun g p => (g.set (some (cstr p.1)) (some (cstr p.2))).1) g0

/-- How the group loop can end: `attrFail` is the early `return false` on
a bad attribute record (no cleanup), `finished err` carries the sticky
error flag set by a bad group-name length or a bad source length. -/
inductive GExit : Type
  | attrFail
  | finished (err : Bool)
deriving DecidableEq, Repr

/-- The group loop of `load` (lines 424-486).  A name length over 64 breaks
out with the error flag; an attribute failure returns immediately; an item
error sets the sticky flag but the partially read group is still
inserted/merged and the loop continues (misaligned) with the next record.
The two trailing `Str` arguments thread the reused `name` and `src`
locals. -/
def groupLoop :
    Nat → RdSt → Map Group → Bool → Str → Str → GExit × RdSt × Map Group
  | 0, st, m, err, _, _ => (.finished err, st, m)
  | i + 1, st, m, err, namePrev, srcPrev =>
    match readI st 1 with
    | (szName, st1) =>
      if szName < 0 ∨ szName > 64 then (.finished true, st1, m)
      else
        match (if szName = 0 then (([] : Str), st1)
               else readInto st1 szName.toNat namePrev) with
        | (name, st2) =>
          match readI st2 4 with
          | (szAttr, st3) =>
            match readI st3 4 with
            | (szItem, st4) =>
              match read_attr szAttr.toNat st4 [] with
              | (false, st5, _) => (.attrFail, st5, m)
              | (true, st5, gprop) =>
                match itemLoop szItem.toNat st5 [] srcPrev with
                | (ierr, st6, gmap, src1) =>
                  match mfind m name with
                  | none =>
                    groupLoop i st6
                      (minsert name ⟨gprop, gmap, prioFrom gprop 100⟩ m)
                      (err || ierr) name src1
                  | some g0 =>
                    groupLoop i st6
                      (minsert name (mergeItems g0 gmap) m)
                      (err || ierr) name src1

/-- How `ck::load` can end: bad magic (immediate failure, document
untouched), attribute-record failure (immediate failure, no cleanup),
sticky error flag (failure after `that.clear()`), or success. -/
inductive LoadExit : Type
  | ok
  | tagFail
  | attrFail
  | flagged
deriving DecidableEq, Repr

/-- `ck::load(Text&, Rd&)` (lines 372-494) up to its exit disposition.
`dec` is the byte stream the external lz4 decompressor would produce when
the compressed flag byte is set; with flag 0 the remainder of `data` is
parsed directly.  A short stream leaves the 3 tag bytes partly unread,
which the magic comparison then rejects. -/
def loadEx (that : Text) (data : List Nat) (dec : List Nat) : LoadExit × Text :=
  match RdSt.readN ⟨data, 0⟩ 3 with
  | (tag, st1) =>
    match st1.readN 1 with
    | (cb, st2) =>
      if tag ≠ [67, 75, 84] then (.tagFail, that)
      else
        match readI (if cb.headD 1 != 0 then (⟨dec, 0⟩ : RdSt) else st2) 4 with
        | (szAttr, stC) =>
          match readI stC 4 with
          | (szGroup, stD) =>
            match read_attr szAttr.toNat stD [] with
            | (false, _, _) => (.attrFail, { that with _prop := [] })
            | (true, stE, dprop) =>
              match groupLoop szGroup.toNat stE that._map false [] [] with
              | (.attrFail, _, m) =>
                (.attrFail, { that with _prop := dprop, _map := m })
              | (.finished e, _, m) =>
                if e then (.flagged, { that with _prop := dprop, _map := m })
                else (.ok, { that with _prop := dprop, _map := m })

/-- `ck::load`'s Boolean result and document effect: the flagged exit runs
`that.clear()` before reporting failure; the other failing exits do not. -/
def load (that : Text) (data dec : List Nat) : Bool × Text :=
  match loadEx that data dec with
  | (.ok, d) => (true, d)
  | (.tagFail, d) => (false, d)
  | (.attrFail, d) => (false, d)
  | (.flagged, d) => (false, d.clear)

/-- Text::load (and Text::open, which differs only in reading the bytes
from a file): run `ck::load`, then rebuild the sorted cache regardless of
the outcome. -/
def Text.load (that : Text) (data dec : List Nat) : Bool × Text :=
  let r := CkText.load that data dec
  (r.1, r.2.update_sorted)

/-! ## The public mutating interface as an operation language (for the
default-group invariant). -/

inductive Op : Type
  | clear
  | removeName (g : Option Str)
  | removeIter (k : Str)
  | rename (o n : Str)
  | insert (g : Option Str) (p : Property)
  | load (data dec : List Nat)
deriving DecidableEq, Repr

def applyOp (d : Text) : Op → Text
  | .clear => d.clear
  | .removeName g => d.remove g
  | .removeIter k => d.removeIter k
  | .rename o n => (d.rename o n).1
  | .insert g p => (d.insert g p).1
  | .load data dec => (Text.load d data dec).2

/-- A Document's lifetime: constructed fresh, then any sequence of public
mutating operations. -/
def run (ops : List Op) : Text := ops.foldl applyOp freshText

/-! ## Concrete documents and byte streams used as test inputs -/

/-- The byte string "priority". -/
def priorityKey : Str := [112, 114, 105, 111, 114, 105, 116, 121]

/-- A document whose default group carries one property and one
translation. -/
def c3doc : Text :=
  ⟨[], [([], ⟨[([112], .vint 5)], [([97], [98])], 100⟩)], []⟩

/-- A container with two groups: "g" (valid, empty) followed by "h" whose
single attribute record has the illegal type tag 0. -/
def c4bytes : List Nat :=
  [67, 75, 84, 0] ++ int32Bytes 0 ++ int32Bytes 2
    ++ [1, 103] ++ int32Bytes 0 ++ int32Bytes 0
    ++ [1, 104] ++ int32Bytes 1 ++ int32Bytes 0 ++ [0]

/-- A container whose single group record announces the illegal name
length 65. -/
def c4fbytes : List Nat :=
  [67, 75, 84, 0] ++ int32Bytes 0 ++ int32Bytes 1 ++ [65]

/-- A container with one group "g" whose "priority" property holds the
Int32 value -5. -/
def c8bytes : List Nat :=
  [67, 75, 84, 0] ++ int32Bytes 0 ++ int32Bytes 1
    ++ [1, 103] ++ int32Bytes 1 ++ int32Bytes 0
    ++ [2, 8] ++ priorityKey ++ int32Bytes (-5)

/-! ## Claims -/

/-- C2: Group-level lookup returns the stored translation when the source
is present with a non-empty translation, the caller-supplied def when the
source is present with an empty translation, and the null sentinel when the
source is absent. -/
theorem c2_group_lookup (g : Group) (src : Str) (dflt : Option Str) :
    (∀ t, mfind g._map src = some t → t ≠ [] → g.u8 src dflt = some t) ∧
    (mfind g._map src = some [] → g.u8 src dflt = dflt) ∧
    (mfind g._map src = none → g.u8 src dflt = none) := by
  refine ⟨fun t h ht => ?_, fun h => ?_, fun h => ?_⟩
  · simp [Group.u8, h, ht]
  · simp [Group.u8, h]
  · simp [Group.u8, h]

/-- Witness for c2_group_lookup at concrete groups. -/
theorem c2_group_lookup_witness :
    Group.u8 ⟨[], [([97], [98])], 100⟩ [97] none = some [98] ∧
    Group.u8 ⟨[], [([97], [])], 100⟩ [97] (some [100]) = some [100] ∧
    Group.u8 ⟨[], [], 100⟩ [97] (some [100]) = none :=
  ⟨(c2_group_lookup ⟨[], [([97], [98])], 100⟩ [97] none).1 [98] (by decide) (by decide),
   (c2_group_lookup ⟨[], [([97], [])], 100⟩ [97] (some [100])).2.1 (by decide),
   (c2_group_lookup ⟨[], [], 100⟩ [97] (some [100])).2.2 (by decide)⟩

/-- C10: the Document-level lookups return the null sentinel immediately
when the source pointer is null, for every document state and every
default argument. -/
theorem c10_null_source (d : Text) (dflt : Option Str) :
    d.u8 none dflt = none ∧ d.u32 none dflt = none :=
  ⟨rfl, rfl⟩

/-- C6: Property::set rejects names of length 0 or above 64 and String
values of length 0 or above 255, and otherwise inserts or overwrites;
Group::set rejects null arguments, sources of length 0 or above 10485760
and translations above 10485760 bytes, and accepts an empty translation. -/
theorem c6_bounds (t : Property) (n : Str) (v : var) (g : Group)
    (s tr : Str) (so tro : Option Str) :
    (n.length = 0 ∨ n.length > 64 → t.set (some n) v = t) ∧
    (∀ sv, v = .vstr sv → sv.length = 0 ∨ sv.length > 255 → t.set (some n) v = t) ∧
    (1 ≤ n.length → n.length ≤ 64 →
      (∀ sv, v = .vstr sv → 1 ≤ sv.length ∧ sv.length ≤ 255) →
      t.set (some n) v = minsert n v t) ∧
    (g.set none tro = (g, none)) ∧
    (g.set so none = (g, none)) ∧
    (s.length = 0 ∨ s.length > 10485760 → g.set (some s) (some tr) = (g, none)) ∧
    (tr.length > 10485760 → g.set (some s) (some tr) = (g, none)) ∧
    (1 ≤ s.length → s.length ≤ 10485760 → tr.length ≤ 10485760 →
      g.set (some s) (some tr) = ({ g with _map := minsert s tr g._map }, some tr)) := by
  refine ⟨fun h => ?_, fun sv hv h => ?_, fun h1 h64 hs => ?_, ?_, ?_,
    fun h => ?_, fun h => ?_, fun h1 h2 h3 => ?_⟩
  · simp only [Property.set, var.valid, Bool.not_true]
    rw [if_neg (by simp), if_pos (by omega)]
  · subst hv
    simp only [Property.set, var.valid, Bool.not_true]
    rw [if_neg (by simp)]
    by_cases hn : n.length < 1 ∨ n.length > 64
    · rw [if_pos hn]
    · rw [if_neg hn, if_pos (by omega)]
  · simp only [Property.set, var.valid, Bool.not_true]
    rw [if_neg (by simp), if_neg (by omega)]
    cases v with
    | vstr sv =>
      have h2 := hs sv rfl
      exact if_neg (by omega)
    | vbool b => rfl
    | vint m => rfl
    | vfloat b => rfl
  · cases tro <;> rfl
  · cases so <;> rfl
  · simp only [Group.set]
    rw [if_pos (by omega)]
  · simp only [Group.set]
    rw [if_pos (by omega)]
  · simp only [Group.set]
    rw [if_neg (by omega)]

/-- Witness for c6_bounds at concrete tables, groups and strings. -/
theorem c6_bounds_witness :
    Property.set [] (some (List.replicate 65 110)) (.vint 1) = [] ∧
    Property.set [] (some [110]) (.vstr []) = [] ∧
    Property.set [] (some [110]) (.vint 1) = [([110], var.vint 1)] ∧
    Group.set emptyGroup none none = (emptyGroup, none) ∧
    Group.set emptyGroup (some []) (some [])
      = (emptyGroup, none) ∧
    Group.set emptyGroup (some [97]) (some [])
      = ({ emptyGroup with _map := [([97], [])] }, some []) :=
  ⟨(c6_bounds [] (List.replicate 65 110) (.vint 1) emptyGroup [] [] none none).1
      (by decide),
   (c6_bounds [] [110] (.vstr []) emptyGroup [] [] none none).2.1 [] rfl (by decide),
   (c6_bounds [] [110] (.vint 1) emptyGroup [] [] none none).2.2.1
      (by decide) (by decide) (by intro sv h; cases h),
   (c6_bounds [] [110] (.vint 1) emptyGroup [] [] none none).2.2.2.1,
   (c6_bounds [] [110] (.vint 1) emptyGroup [] [] none none).2.2.2.2.2.1
      (by decide),
   (c6_bounds [] [110] (.vint 1) emptyGroup [97] [] none none).2.2.2.2.2.2.2
      (by decide) (by decide) (by decide)⟩

/-- C5 (code bug): the unknown-type and bad-name-length failures do rewind
by exactly the consumed bytes and return false, but in the String case the
result of the length read is stored into a `uint8_t`, so the
"illegal string length" branch never executes: on a string length byte of
0 the record reader returns true at the advanced position, with no rewind
and the table unchanged, where the claim requires false and a rewind of
3 + nameLen bytes. -/
theorem c5_string_length_check_dead :
    read ⟨[0], 0⟩ [] = (false, ⟨[0], 0⟩, []) ∧
    read ⟨[2, 0], 0⟩ [] = (false, ⟨[2, 0], 0⟩, []) ∧
    read ⟨[4, 1, 110, 0], 0⟩ [] = (true, ⟨[4, 1, 110, 0], 4⟩, []) :=
  ⟨by decide, by decide, by decide⟩

/-- C8 (code bug): `_priority` is a `uint32_t`, so assigning a negative
Int32 priority wraps modulo 2^32 and the following `< 0` clamp never
fires: a "priority" of -5 becomes 4294967291 both at insert time and at
load time, and such a group sorts above a group of priority 200 instead of
below every positive-priority group. -/
theorem c8_negative_priority_wraps :
    (((freshText.insert (some [103]) [(priorityKey, .vint (-5))]).1.insert
        (some [104]) [(priorityKey, .vint 200)]).1._sorted.map Group._priority
      = [4294967291, 200, 100]) ∧
    ((Text.load freshText c8bytes []).2._sorted.map Group._priority
      = [4294967291, 100]) := by
  decide

/-- C9 (code bug): a default-constructed var holds the first variant
alternative, `bool false`: its tag is TP_BOOL (1), not TP_NUL (0), it is
`valid()`, Property::set inserts it rather than skipping it, and the
writer serializes it (type byte 1, name, payload byte 0). -/
theorem c9_default_var_is_bool :
    varDefault.type = 1 ∧ varDefault.valid = true ∧
    Property.set [] (some [112]) varDefault = [([112], varDefault)] ∧
    write [([112], varDefault)] = [1, 1, 112, 0] := by
  decide

/-- C3 counterexample: saving and re-loading a document whose default group
carries a property succeeds but loses that property (the loaded default
group is merged into the fresh document's default group and its property
table is discarded), so the loaded document does not contain the same
property values. -/
theorem c3_counterexample :
    (Text.load freshText (save c3doc) []).1 = true ∧
    (mfind c3doc._map []).map Group._prop = some [([112], var.vint 5)] ∧
    (mfind c3doc._map []).map Group._map = some [([97], [98])] ∧
    (mfind (Text.load freshText (save c3doc) []).2._map []).map Group._prop
      = some [] ∧
    (mfind (Text.load freshText (save c3doc) []).2._map []).map Group._map
      = some [([97], [98])] := by
  decide

/-- C4 counterexample: a failed attribute record in the second group makes
`load` return false through the early-return path, which performs no
cleanup: the first loaded group "g" survives next to the default group, so
the document is not in its post-clear() state (which has exactly one
group). -/
theorem c4_counterexample :
    (Text.load freshText c4bytes []).1 = false ∧
    (Text.load freshText c4bytes []).2._map.map Prod.fst = [[], [103]] := by
  decide

/-- C7 counterexample: rename does not protect the unnamed default group —
renaming "" to "g" removes the empty-named group from the map, so the
default group does not exist for the lifetime of the document. -/
theorem c7_counterexample :
    ¬ (([] : Str) ∈ keys (run [Op.rename [] [103]])._map) := by
  decide

/-! ## C1: document-level resolution -/

instance : IsTotal Group fun a b => b._priority ≤ a._priority :=
  ⟨fun a b => Nat.le_total b._priority a._priority⟩

instance : IsTrans Group fun a b => b._priority ≤ a._priority :=
  ⟨fun _ _ _ h1 h2 => Nat.le_trans h2 h1⟩

theorem u8core_all_miss (gs : List Group) (src : Str) (dflt : Option Str)
    (h : ∀ g ∈ gs, mfind g._map src = none) : u8core gs src dflt = none := by
  induction gs with
  | nil => rfl
  | cons g rest ih =>
    have hg := h g (by simp)
    unfold u8core
    rw [hg]
    exact ih fun g2 hm => h g2 (List.mem_cons_of_mem _ hm)

theorem u32core_all_miss (gs : List Group) (src : Str) (dflt : Option Str)
    (h : ∀ g ∈ gs, mfind g._map src = none) : u32core gs src dflt = none := by
  induction gs with
  | nil => rfl
  | cons g rest ih =>
    have hg := h g (by simp)
    unfold u32core
    rw [hg]
    exact ih fun g2 hm => h g2 (List.mem_cons_of_mem _ hm)

theorem u8core_first_hit (pre : List Group) (g : Group) (post : List Group)
    (src : Str) (dflt : Option Str)
    (hpre : ∀ g2 ∈ pre, mfind g2._map src = none)
    (t : Str) (ht : mfind g._map src = some t) :
    u8core (pre ++ g :: post) src dflt = if t = [] then dflt else some t := by
  induction pre with
  | nil =>
    rw [List.nil_append]
    simp [u8core, ht]
  | cons p rest ih =>
    have hp := hpre p (by simp)
    rw [List.cons_append]
    unfold u8core
    rw [hp]
    exact ih fun g2 hm => hpre g2 (List.mem_cons_of_mem _ hm)

theorem u32core_first_hit (pre : List Group) (g : Group) (post : List Group)
    (src : Str) (dflt : Option Str)
    (hpre : ∀ g2 ∈ pre, mfind g2._map src = none)
    (t : Str) (ht : mfind g._map src = some t) :
    u32core (pre ++ g :: post) src dflt
      = if t = [] then dflt.map u8to32 else some (u8to32 t) := by
  induction pre with
  | nil =>
    rw [List.nil_append]
    simp [u32core, ht]
  | cons p rest ih =>
    have hp := hpre p (by simp)
    rw [List.cons_append]
    unfold u32core
    rw [hp]
    exact ih fun g2 hm => hpre g2 (List.mem_cons_of_mem _ hm)

/-- C1: with the cache in sync (as after any operation that rebuilds it),
the document-level lookups walk the cache in priority-descending order;
the first group whose map contains the source decides the result — its
translation if non-empty, the caller's def if empty — independently of any
later (lower-priority) group, and if no group contains the source the null
sentinel is returned. -/
theorem c1_document_resolution (d : Text)
    (hs : d._sorted = sortGroups (d._map.map Prod.snd))
    (src : Str) (dflt : Option Str) :
    List.Sorted (fun a b : Group => b._priority ≤ a._priority) d._sorted ∧
    ((∀ g ∈ d._sorted, mfind g._map src = none) →
      d.u8 (some src) dflt = none ∧ d.u32 (some src) dflt = none) ∧
    (∀ pre g post, d._sorted = pre ++ g :: post →
      (∀ g2 ∈ pre, mfind g2._map src = none) →
      ∀ t, mfind g._map src = some t →
        d.u8 (some src) dflt = (if t = [] then dflt else some t) ∧
        ∀ ds, dflt = some ds →
          d.u32 (some src) dflt = some (u8to32 (if t = [] then ds else t))) := by
  refine ⟨?_, fun h => ⟨?_, ?_⟩, fun pre g post hdec hpre t ht => ⟨?_, fun ds hds => ?_⟩⟩
  · rw [hs]
    exact List.sorted_insertionSort _ _
  · exact u8core_all_miss d._sorted src dflt h
  · exact u32core_all_miss d._sorted src dflt h
  · show u8core d._sorted src dflt = _
    rw [hdec]
    exact u8core_first_hit pre g post src dflt hpre t ht
  · show u32core d._sorted src dflt = _
    rw [hdec]
    rw [u32core_first_hit pre g post src dflt hpre t ht]
    subst hds
    by_cases he : t = []
    · simp [he]
    · simp [he]

/-- A two-group document (priorities 200 and 100) with its cache rebuilt,
for the c1 witness. -/
def c1doc : Text :=
  Text.update_sorted
    ⟨[], [([], emptyGroup), ([97], ⟨[], [([107], [118])], 200⟩)], []⟩

/-- Witness for c1_document_resolution: in c1doc the priority-200 group
owns source "k", so the lookup returns its translation "v". -/
theorem c1_document_resolution_witness :
    Text.u8 c1doc (some [107]) (some [100]) = some [118] ∧
    Text.u32 c1doc (some [107]) (some [100]) = some (u8to32 [118]) := by
  have h := (c1_document_resolution c1doc rfl [107] (some [100])).2.2
    [] ⟨[], [([107], [118])], 200⟩ [emptyGroup] (by decide) (by simp)
    [118] (by decide)
  refine ⟨?_, ?_⟩
  · rw [h.1]
    decide
  · rw [h.2 [100] rfl]
    decide

/-! ## Order lemmas for the map representation -/

theorem strLt_nil (s : Str) : strLt s [] = false := by
  cases s <;> rfl

theorem strLt_irrefl (s : Str) : strLt s s = false := by
  induction s with
  | nil => rfl
  | cons a as ih => simp [strLt, ih]

theorem strLt_ne {a b : Str} (h : strLt a b = true) : a ≠ b := by
  intro he
  subst he
  rw [strLt_irrefl] at h
  exact Bool.false_ne_true h

theorem strLt_cons_iff {x y : Nat} {xs ys : Str} :
    strLt (x :: xs) (y :: ys) = true ↔ x < y ∨ (x = y ∧ strLt xs ys = true) := by
  simp only [strLt]
  by_cases h1 : x < y
  · simp [h1]
  · by_cases h2 : y < x
    · rw [if_neg h1, if_pos h2]
      simp only [Bool.false_eq_true, false_iff]
      rintro (h | ⟨h, _⟩) <;> omega
    · have hxy : x = y := by omega
      subst hxy
      simp [h1, h2]

theorem strLt_trans {a b c : Str} (h1 : strLt a b = true) (h2 : strLt b c = true) :
    strLt a c = true := by
  induction a generalizing b c with
  | nil =>
    cases b with
    | nil => simp [strLt] at h1
    | cons y ys =>
      cases c with
      | nil => simp [strLt] at h2
      | cons z zs => rfl
  | cons x xs ih =>
    cases b with
    | nil => simp [strLt] at h1
    | cons y ys =>
      cases c with
      | nil => simp [strLt] at h2
      | cons z zs =>
        rcases strLt_cons_iff.mp h1 with hx | ⟨hx, hx2⟩ <;>
          rcases strLt_cons_iff.mp h2 with hy | ⟨hy, hy2⟩
        · exact strLt_cons_iff.mpr (Or.inl (by omega))
        · exact strLt_cons_iff.mpr (Or.inl (by omega))
        · exact strLt_cons_iff.mpr (Or.inl (by omega))
        · exact strLt_cons_iff.mpr (Or.inr ⟨by omega, ih hx2 hy2⟩)

theorem strLt_total (a b : Str) : strLt a b = true ∨ a = b ∨ strLt b a = true := by
  induction a generalizing b with
  | nil =>
    cases b with
    | nil => exact Or.inr (Or.inl rfl)
    | cons y ys => exact Or.inl rfl
  | cons x xs ih =>
    cases b with
    | nil => exact Or.inr (Or.inr rfl)
    | cons y ys =>
      by_cases hxy : x < y
      · exact Or.inl (strLt_cons_iff.mpr (Or.inl hxy))
      · by_cases hyx : y < x
        · exact Or.inr (Or.inr (strLt_cons_iff.mpr (Or.inl hyx)))
        · have hxeqy : x = y := by omega
          subst hxeqy
          rcases ih ys with h | h | h
          · exact Or.inl (strLt_cons_iff.mpr (Or.inr ⟨rfl, h⟩))
          · exact Or.inr (Or.inl (by rw [h]))
          · exact Or.inr (Or.inr (strLt_cons_iff.mpr (Or.inr ⟨rfl, h⟩)))

/-! ## Map lemmas -/

theorem mem_keys_minsert {α : Type} (k k2 : Str) (v : α) (m : Map α) :
    k2 ∈ keys (minsert k v m) ↔ k2 = k ∨ k2 ∈ keys m := by
  induction m with
  | nil => simp [minsert, keys]
  | cons e rest ih =>
    by_cases h1 : strLt k e.1
    · simp [minsert, h1, keys]
    · by_cases h2 : k = e.1
      · subst h2
        simp [minsert, h1, keys]
      · simp only [minsert, if_neg h1, if_neg h2, keys, List.map_cons, List.mem_cons]
        rw [keys] at ih
        rw [ih]
        tauto

theorem minsert_pairwise {α : Type} (k : Str) (v : α) (m : Map α)
    (h : keysSorted m) : keysSorted (minsert k v m) := by
  induction m with
  | nil => simp [minsert, keysSorted]
  | cons e rest ih =>
    rw [keysSorted, List.pairwise_cons] at h
    by_cases h1 : strLt k e.1
    · rw [minsert, if_pos h1]
      rw [keysSorted, List.pairwise_cons]
      refine ⟨?_, h.2.cons h.1⟩
      intro e2 he2
      rcases List.mem_cons.mp he2 with he | he
      · subst he
        exact h1
      · exact strLt_trans h1 (h.1 e2 he)
    · by_cases h2 : k = e.1
      · rw [minsert, if_neg h1, if_pos h2]
        rw [keysSorted, List.pairwise_cons]
        exact ⟨by simpa [h2] using h.1, h.2⟩
      · rw [minsert, if_neg h1, if_neg h2]
        rw [keysSorted, List.pairwise_cons]
        refine ⟨?_, ih h.2⟩
        intro e2 he2
        have hk2 : e2.1 = k ∨ e2.1 ∈ keys rest :=
          (mem_keys_minsert k e2.1 v rest).mp (List.mem_map_of_mem Prod.fst he2)
        rcases hk2 with he | he
        · rw [he]
          rcases strLt_total k e.1 with ht | ht | ht
          · exact absurd ht h1
          · exact absurd ht h2
          · exact ht
        · rcases List.mem_map.mp he with ⟨e3, he3, hkey⟩
          rw [← hkey]
          exact h.1 e3 he3

theorem mfind_eq_none {α : Type} {m : Map α} {k : Str}
    (h : ∀ e ∈ m, e.1 ≠ k) : mfind m k = none := by
  induction m with
  | nil => rfl
  | cons e rest ih =>
    have h1 : k ≠ e.1 := fun he => h e (by simp) he.symm
    rw [mfind.eq_def]
    simp only [if_neg h1]
    exact ih fun e2 he2 => h e2 (List.mem_cons_of_mem _ he2)

theorem minsert_append {α : Type} {m : Map α} {k : Str} (v : α)
    (h : ∀ e ∈ m, strLt e.1 k = true) : minsert k v m = m ++ [(k, v)] := by
  induction m with
  | nil => rfl
  | cons e rest ih =>
    have h1 : strLt e.1 k = true := h e (by simp)
    have h2 : ¬ strLt k e.1 = true := by
      intro hc
      have := strLt_trans hc h1
      rw [strLt_irrefl] at this
      exact Bool.false_ne_true this
    have h3 : k ≠ e.1 := fun he => strLt_ne h1 he.symm
    rw [minsert, if_neg h2, if_neg h3, ih fun e2 he2 => h e2 (List.mem_cons_of_mem _ he2)]
    rfl

/-- In a sorted map that contains the empty key, the empty key is the
first entry and no other entry has it. -/
theorem head_default {α : Type} {m : Map α} (hs : keysSorted m)
    (hm : ([] : Str) ∈ keys m) :
    ∃ g rest, m = ([], g) :: rest ∧ ∀ e ∈ rest, e.1 ≠ ([] : Str) := by
  cases m with
  | nil => cases hm
  | cons e rest =>
    rw [keysSorted, List.pairwise_cons] at hs
    by_cases hk : e.1 = []
    · refine ⟨e.2, rest, ?_, ?_⟩
      · rw [← hk]
      · intro e2 he2 he2k
        have := hs.1 e2 he2
        rw [hk, he2k, strLt_irrefl] at this
        exact Bool.false_ne_true this
    · exfalso
      rcases List.mem_cons.mp hm with h | h
      · exact hk h.symm
      · rcases List.mem_map.mp h with ⟨e2, he2, hkey⟩
        have := hs.1 e2 he2
        rw [hkey, strLt_nil] at this
        exact Bool.false_ne_true this

/-! ## The default-group invariant -/

/-- The std::map representation invariant plus presence of the default
group. -/
abbrev MapInv (m : Map Group) : Prop :=
  keysSorted m ∧ ([] : Str) ∈ keys m

theorem MapInv_minsert {m : Map Group} (k : Str) (g : Group) (h : MapInv m) :
    MapInv (minsert k g m) :=
  ⟨minsert_pairwise k g m h.1, (mem_keys_minsert k [] g m).mpr (Or.inr h.2)⟩

theorem MapInv_merase {m : Map Group} {k : Str} (hk : k ≠ []) (h : MapInv m) :
    MapInv (merase k m) := by
  refine ⟨List.Pairwise.filter _ h.1, ?_⟩
  rcases List.mem_map.mp h.2 with ⟨e, he, hkey⟩
  refine List.mem_map.mpr ⟨e, List.mem_filter.mpr ⟨he, ?_⟩, hkey⟩
  simp only [ne_eq, decide_eq_true_eq]
  intro hc
  exact hk (hkey ▸ hc ▸ rfl)

/-- Under the invariant, Text::clear leaves exactly the empty-named empty
group and no document properties. -/
theorem clear_state {d : Text} (h : MapInv d._map) :
    d.clear._map = [([], emptyGroup)] ∧ d.clear._prop = [] := by
  rcases head_default h.1 h.2 with ⟨g, rest, hm, hrest⟩
  have hfilter : d._map.filter (fun e => e.1 = ([] : Str)) = [([], g)] := by
    rw [hm]
    have h0 : rest.filter (fun e => e.1 = ([] : Str)) = [] := by
      rw [List.filter_eq_nil_iff]
      intro e he
      simp only [decide_eq_true_eq]
      exact hrest e he
    simp [List.filter_cons, h0]
  have hloop : clearLoop d._map = [([], g)] := by
    rw [clearLoop, if_pos h.2, hfilter]
  constructor
  · show (match clearLoop d._map with
      | [] => []
      | (k, g) :: rest => (k, g.clear) :: rest) = [([], emptyGroup)]
    rw [hloop]
    rfl
  · rfl

theorem groupLoop_MapInv (n : Nat) :
    ∀ (st : RdSt) (m : Map Group) (err : Bool) (np sp : Str), MapInv m →
      MapInv (groupLoop n st m err np sp).2.2 := by
  induction n with
  | zero =>
    intro st m err np sp h
    exact h
  | succ i ih =>
    intro st m err np sp h
    rw [groupLoop]
    repeat' split
    all_goals first
      | exact h
      | exact ih _ _ _ _ _ (MapInv_minsert _ _ h)

theorem groupLoop_result_MapInv {n : Nat} {st : RdSt} {m : Map Group}
    {err : Bool} {np sp : Str} {e : GExit} {st2 : RdSt} {m2 : Map Group}
    (heq : groupLoop n st m err np sp = (e, st2, m2)) (h : MapInv m) :
    MapInv m2 := by
  have h2 := groupLoop_MapInv n st m err np sp h
  rw [heq] at h2
  exact h2

theorem loadEx_MapInv (that : Text) (data dec : List Nat) (h : MapInv that._map) :
    MapInv ((loadEx that data dec).2)._map := by
  rw [loadEx]
  repeat' split
  all_goals try exact h
  all_goals first
    | (rename_i heq; exact groupLoop_result_MapInv heq h)
    | (rename_i heq hcond; exact groupLoop_result_MapInv heq h)

theorem load_MapInv (that : Text) (data dec : List Nat) (h : MapInv that._map) :
    MapInv ((load that data dec).2)._map := by
  have h2 := loadEx_MapInv that data dec h
  rw [load]
  rcases hEq : loadEx that data dec with ⟨e, d2⟩
  rw [hEq] at h2
  cases e
  · exact h2
  · exact h2
  · exact h2
  · show MapInv d2.clear._map
    rw [(clear_state h2).1]
    exact ⟨by decide, by decide⟩

/-- Operations that do not target the default group through the two
unguarded paths (remove-by-iterator and rename-from). -/
def defaultSafe : Op → Bool
  | .rename o _ => decide (o ≠ [])
  | .removeIter k => decide (k ≠ [])
  | _ => true

theorem applyOp_MapInv (d : Text) (op : Op) (hop : defaultSafe op = true)
    (h : MapInv d._map) : MapInv (applyOp d op)._map := by
  cases op with
  | clear =>
    show MapInv d.clear._map
    rw [(clear_state h).1]
    exact ⟨by decide, by decide⟩
  | removeName g =>
    cases g with
    | none => exact h
    | some name =>
      show MapInv (d.remove (some name))._map
      rw [Text.remove]
      by_cases hl : name.length > 0
      · rw [if_pos hl]
        have hne : name ≠ [] := by
          intro hc
          rw [hc] at hl
          exact absurd hl (by simp)
        exact MapInv_merase hne h
      · rw [if_neg hl]
        rcases hEq : mfind d._map name with _ | g2
        · simpa [hEq] using h
        · simp only [hEq]
          exact MapInv_minsert _ _ h
  | removeIter k =>
    have hk : k ≠ [] := by simpa [defaultSafe] using hop
    exact MapInv_merase hk h
  | rename o n =>
    have ho : o ≠ [] := by simpa [defaultSafe] using hop
    show MapInv (d.rename o n).1._map
    rw [Text.rename]
    rcases hEq : mfind d._map o with _ | g
    · exact h
    · simp only
      split
      · exact h
      · exact MapInv_minsert _ _ (MapInv_merase ho h)
  | insert g p =>
    cases g with
    | none => exact h
    | some name =>
      show MapInv (d.insert (some name) p).1._map
      rw [Text.insert]
      simp only
      split
      · exact h
      · split
        · exact h
        · exact MapInv_minsert _ _ h
  | load data dec =>
    show MapInv (Text.load d data dec).2._map
    rw [Text.load]
    exact load_MapInv d data dec h

theorem foldl_MapInv (l : List Op) :
    ∀ d : Text, MapInv d._map → (∀ op ∈ l, defaultSafe op = true) →
      MapInv (l.foldl applyOp d)._map := by
  induction l with
  | nil =>
    intro d h _
    exact h
  | cons op rest ih =>
    intro d h hops
    rw [List.foldl_cons]
    exact ih _ (applyOp_MapInv d op (hops op (by simp)) h)
      fun op2 h2 => hops op2 (List.mem_cons_of_mem _ h2)

/-- C7 amended: under every sequence of public operations that does not
remove the default group through an iterator or rename it away, the group
map always contains the empty-named default group, and a subsequent
clear() leaves exactly one group, empty-named and empty. -/
theorem c7_default_group_amended (ops : List Op)
    (h : ∀ op ∈ ops, defaultSafe op = true) :
    (([] : Str) ∈ keys (run ops)._map) ∧
    (run (ops ++ [Op.clear]))._map = [([], emptyGroup)] := by
  have hInv : MapInv (run ops)._map :=
    foldl_MapInv ops freshText (by decide) h
  refine ⟨hInv.2, ?_⟩
  have hsplit : run (ops ++ [Op.clear]) = (run ops).clear := by
    rw [run, List.foldl_append]
    rfl
  rw [hsplit]
  exact (clear_state hInv).1

/-- Witness for c7_default_group_amended on a concrete operation
sequence. -/
theorem c7_default_group_amended_witness :
    (([] : Str) ∈ keys (run [Op.insert (some [97]) [], Op.removeName (some [97])])._map) ∧
    (run ([Op.insert (some [97]) [], Op.removeName (some [97])] ++ [Op.clear]))._map
      = [([], emptyGroup)] :=
  c7_default_group_amended [Op.insert (some [97]) [], Op.removeName (some [97])]
    (by decide)

/-- C4 amended: when load fails through the sticky error flag (a bad
group-name length or a bad source length), the document is left in its
post-clear() state — exactly one empty default group and no document
properties.  (The attribute-record and bad-magic failures return false
without this cleanup, as c4_counterexample shows.) -/
theorem c4_flagged_failure_clears (doc : Text) (data dec : List Nat)
    (h : MapInv doc._map) (hf : (loadEx doc data dec).1 = .flagged) :
    (Text.load doc data dec).1 = false ∧
    (Text.load doc data dec).2._map = [([], emptyGroup)] ∧
    (Text.load doc data dec).2._prop = [] := by
  have hInv2 : MapInv ((loadEx doc data dec).2)._map := loadEx_MapInv doc data dec h
  rcases hEq : loadEx doc data dec with ⟨e, d2⟩
  rw [hEq] at hf hInv2
  simp only at hf hInv2
  subst hf
  have hload : CkText.load doc data dec = (false, d2.clear) := by
    rw [CkText.load, hEq]
  refine ⟨?_, ?_, ?_⟩
  · show (CkText.load doc data dec).1 = false
    rw [hload]
  · show ((CkText.load doc data dec).2.update_sorted)._map = _
    rw [hload]
    exact (clear_state hInv2).1
  · show ((CkText.load doc data dec).2.update_sorted)._prop = _
    rw [hload]
    exact (clear_state hInv2).2

/-- Witness for c4_flagged_failure_clears: a container whose single group
record announces name length 65. -/
theorem c4_flagged_failure_clears_witness :
    (Text.load freshText c4fbytes []).1 = false ∧
    (Text.load freshText c4fbytes []).2._map = [([], emptyGroup)] ∧
    (Text.load freshText c4fbytes []).2._prop = [] :=
  c4_flagged_failure_clears freshText c4fbytes [] (by decide) (by decide)

/-! ## Validity of in-bounds documents (the hypotheses of the round trip)

These record exactly the bounds the mutating interface enforces: property
names are 1..64 NUL-free bytes, String payloads are 1..255 bytes, sources
are 1..10 MiB NUL-free bytes, translations are 0..10 MiB NUL-free bytes
(all strings that travel through `const char*` parameters are NUL-free by
construction), the values fit their machine types, and the map sizes fit
an int32. -/

def validVal : var → Prop
  | .vbool _ => True
  | .vint n => -2147483648 ≤ n ∧ n < 2147483648
  | .vfloat bits => bits < 4294967296
  | .vstr s => 1 ≤ s.length ∧ s.length ≤ 255

def validName64 (k : Str) : Prop :=
  1 ≤ k.length ∧ k.length ≤ 64 ∧ (0 : Nat) ∉ k

def validProps (p : Property) : Prop :=
  keysSorted p ∧ p.length < 2147483648 ∧ ∀ e ∈ p, validName64 e.1 ∧ validVal e.2

def validItem (e : Str × Str) : Prop :=
  (1 ≤ e.1.length ∧ e.1.length ≤ 10485760 ∧ (0 : Nat) ∉ e.1) ∧
    (e.2.length ≤ 10485760 ∧ (0 : Nat) ∉ e.2)

def validItems (m : Map Str) : Prop :=
  keysSorted m ∧ m.length < 2147483648 ∧ ∀ e ∈ m, validItem e

def validGroup (g : Group) : Prop :=
  validProps g._prop ∧ validItems g._map

/-- A Document built only from valid (in-bounds) groups, properties and
translations, in the std::map representation. -/
def ValidDoc (d : Text) : Prop :=
  keysSorted d._map ∧ d._map.length < 2147483648 ∧ ([] : Str) ∈ keys d._map ∧
    validProps d._prop ∧
    ∀ e ∈ d._map, (e.1 = [] ∨ validName64 e.1) ∧ validGroup e.2

/-! ## Reader specifications on well-formed streams -/

theorem readN_spec {st : RdSt} {xs ys : List Nat} (h : st.rem = xs ++ ys) :
    ∃ st2 : RdSt, st.readN xs.length = (xs, st2) ∧ st2.rem = ys := by
  rw [RdSt.rem] at h
  refine ⟨⟨st.data, st.pos + xs.length⟩, ?_, ?_⟩
  · rw [RdSt.readN]
    have hraw : (st.data.drop st.pos).take xs.length = xs := by
      rw [h]
      simp
    rw [hraw]
  · show st.data.drop (st.pos + xs.length) = ys
    have : st.data.drop (st.pos + xs.length) = (st.data.drop st.pos).drop xs.length := by
      rw [List.drop_drop, Nat.add_comm]
    rw [this, h]
    simp

theorem int32Bytes_length (n : Int) : (int32Bytes n).length = 4 := rfl

theorem leVal_le4 (m : Nat) : leVal (le4 m) = m % 4294967296 := by
  rw [le4, leVal]
  simp only [List.foldr]
  omega

theorem readI_spec1 {st : RdSt} {b : Nat} {ys : List Nat}
    (h : st.rem = b :: ys) (hb : b < 2147483648) :
    ∃ st2 : RdSt, readI st 1 = ((b : Int), st2) ∧ st2.rem = ys := by
  obtain ⟨st2, h1, h2⟩ := @readN_spec st [b] ys h
  refine ⟨st2, ?_, h2⟩
  have h1b : st.readN 1 = ([b], st2) := h1
  rw [readI, h1b]
  have : asInt32 (leVal [b]) = (b : Int) := by
    rw [leVal]
    simp only [List.foldr]
    rw [asInt32]
    split <;> omega
  simp only
  rw [this]

theorem readI_spec4 {st : RdSt} {n : Int} {ys : List Nat}
    (h : st.rem = int32Bytes n ++ ys) (hn1 : -2147483648 ≤ n)
    (hn2 : n < 2147483648) :
    ∃ st2 : RdSt, readI st 4 = (n, st2) ∧ st2.rem = ys := by
  obtain ⟨st2, h1, h2⟩ := @readN_spec st (int32Bytes n) ys h
  rw [int32Bytes_length] at h1
  refine ⟨st2, ?_, h2⟩
  rw [readI, h1]
  have : asInt32 (leVal (int32Bytes n)) = n := by
    rw [int32Bytes, leVal_le4, asInt32]
    split <;> omega
  simp only
  rw [this]

theorem readU_spec4 {st : RdSt} {b : Nat} {ys : List Nat}
    (h : st.rem = le4 b ++ ys) (hb : b < 4294967296) :
    ∃ st2 : RdSt, readU st 4 = (b, st2) ∧ st2.rem = ys := by
  obtain ⟨st2, h1, h2⟩ := @readN_spec st (le4 b) ys h
  have hl : (le4 b).length = 4 := rfl
  rw [hl] at h1
  refine ⟨st2, ?_, h2⟩
  rw [readU, h1]
  simp only
  rw [leVal_le4]
  congr 1
  omega

theorem readInto_spec {st : RdSt} {xs ys : List Nat} (prev : Str)
    (h : st.rem = xs ++ ys) :
    ∃ st2 : RdSt, readInto st xs.length prev = (xs, st2) ∧ st2.rem = ys := by
  obtain ⟨st2, h1, h2⟩ := readN_spec h
  refine ⟨st2, ?_, h2⟩
  rw [readInto, h1]
  simp only
  have hlen : (prev.take xs.length ++ List.replicate (xs.length - prev.length) 0).length
      ≤ xs.length := by
    simp [List.length_take]
    omega
  rw [List.drop_eq_nil_of_le hlen]
  simp

theorem cstr_eq_self {k : Str} (h : (0 : Nat) ∉ k) : cstr k = k := by
  induction k with
  | nil => rfl
  | cons a as ih =>
    have ha : a ≠ 0 := fun hc => h (by simp [hc])
    have h2 := ih fun hc => h (List.mem_cons_of_mem _ hc)
    rw [cstr] at h2 ⊢
    rw [List.takeWhile_cons, if_pos (by simp [ha]), h2]

theorem read_str1_spec {st : RdSt} {k : Str} {ys : List Nat} (maxSize : Nat)
    (h : st.rem = k.length :: k ++ ys) (h1 : 1 ≤ k.length)
    (h2 : k.length ≤ maxSize) (h3 : maxSize ≤ 255) :
    ∃ st2 : RdSt, read_str1 st maxSize = ((k.length : Int), k, st2) ∧ st2.rem = ys := by
  obtain ⟨stA, hA, hAr⟩ := readI_spec1 h (by omega)
  obtain ⟨stB, hB, hBr⟩ := readInto_spec [] hAr
  refine ⟨stB, ?_, hBr⟩
  rw [read_str1, hA]
  simp only
  rw [if_neg (by omega)]
  have ht : ((k.length : Int)).toNat = k.length := by omega
  rw [ht, hB]

theorem read_str_spec {st : RdSt} {s : Str} {ys : List Nat} (prev : Str)
    (h : st.rem = int32Bytes s.length ++ s ++ ys) (h1 : 1 ≤ s.length)
    (h2 : s.length ≤ 10485760) :
    ∃ st2 : RdSt, read_str st prev = ((s.length : Int), s, st2) ∧ st2.rem = ys := by
  rw [List.append_assoc] at h
  obtain ⟨stA, hA, hAr⟩ := readI_spec4 h (by omega) (by omega)
  obtain ⟨stB, hB, hBr⟩ := readInto_spec prev hAr
  refine ⟨stB, ?_, hBr⟩
  rw [read_str, hA]
  simp only
  rw [if_neg (by omega)]
  have ht : ((s.length : Int)).toNat = s.length := by omega
  rw [ht, hB]

theorem read_str_zero_spec {st : RdSt} {ys : List Nat} (prev : Str)
    (h : st.rem = int32Bytes 0 ++ ys) :
    ∃ st2 : RdSt, read_str st prev = (0, prev, st2) ∧ st2.rem = ys := by
  obtain ⟨stA, hA, hAr⟩ := readI_spec4 h (by omega) (by omega)
  refine ⟨stA, ?_, hAr⟩
  rw [read_str, hA]
  simp only
  rw [if_pos (by omega)]

theorem Pset_valid {o : Property} {k : Str} {v : var} (h1 : 1 ≤ k.length)
    (h2 : k.length ≤ 64) (hv : validVal v) :
    o.set (some k) v = minsert k v o := by
  simp only [Property.set, var.valid, Bool.not_true]
  rw [if_neg (by simp), if_neg (by omega)]
  cases v with
  | vstr s =>
    rw [validVal] at hv
    exact if_neg (by omega)
  | vbool b => rfl
  | vint n => rfl
  | vfloat b => rfl

/-- Reading one well-formed attribute record succeeds and performs exactly
the corresponding Property::set. -/
theorem read_spec {st : RdSt} {k : Str} {v : var} {ys : List Nat} (o : Property)
    (hk : validName64 k) (hv : validVal v)
    (h : st.rem = entryBytes k v ++ ys) :
    ∃ st2 : RdSt, read st o = (true, st2, o.set (some k) v) ∧ st2.rem = ys := by
  obtain ⟨hk1, hk2, hk3⟩ := hk
  have hkc : ¬(k.length = 0 ∨ k.length > 64) := by omega
  have hmod : k.length % 256 = k.length := by omega
  have hcstr : cstr k = k := cstr_eq_self hk3
  cases v with
  | vbool b =>
    rw [entryBytes] at h
    simp only [var.type, valBytes] at h
    rw [if_neg (by omega), if_neg hkc, hmod] at h
    rw [show (1 : Nat) :: k.length :: k ++ [if b then 1 else 0] ++ ys
        = 1 :: k.length :: (k ++ ((if b then 1 else 0) :: ys)) from by simp] at h
    obtain ⟨st1, hA, hAr⟩ := readI_spec1 h (by omega)
    obtain ⟨st2, hB, hBr⟩ := read_str1_spec 64
      (show st1.rem = k.length :: k ++ ((if b then 1 else 0) :: ys) from hAr)
      hk1 hk2 (by omega)
    obtain ⟨st3, hC, hCr⟩ := readI_spec1 hBr (by cases b <;> simp)
    refine ⟨st3, ?_, hCr⟩
    rw [read, hA]
    simp only
    rw [if_neg (by omega), hB]
    simp only
    rw [if_neg (by omega), if_pos (by omega), hC]
    simp only [hcstr]
    cases b <;> simp
  | vint n =>
    rw [entryBytes] at h
    simp only [var.type, valBytes] at h
    rw [if_neg (by omega), if_neg hkc, hmod] at h
    rw [show (2 : Nat) :: k.length :: k ++ int32Bytes n ++ ys
        = 2 :: k.length :: (k ++ (int32Bytes n ++ ys)) from by simp] at h
    obtain ⟨st1, hA, hAr⟩ := readI_spec1 h (by omega)
    obtain ⟨st2, hB, hBr⟩ := read_str1_spec 64
      (show st1.rem = k.length :: k ++ (int32Bytes n ++ ys) from hAr)
      hk1 hk2 (by omega)
    obtain ⟨st3, hC, hCr⟩ := readI_spec4 hBr hv.1 hv.2
    refine ⟨st3, ?_, hCr⟩
    rw [read, hA]
    simp only
    rw [if_neg (by omega), hB]
    simp only
    rw [if_neg (by omega), if_neg (by omega), if_pos (by omega), hC]
    simp only [hcstr]
  | vfloat bits =>
    rw [entryBytes] at h
    simp only [var.type, valBytes] at h
    rw [if_neg (by omega), if_neg hkc, hmod] at h
    have hb : bits % 4294967296 = bits := by
      rw [validVal] at hv
      omega
    rw [hb] at h
    rw [show (3 : Nat) :: k.length :: k ++ le4 bits ++ ys
        = 3 :: k.length :: (k ++ (le4 bits ++ ys)) from by simp] at h
    obtain ⟨st1, hA, hAr⟩ := readI_spec1 h (by omega)
    obtain ⟨st2, hB, hBr⟩ := read_str1_spec 64
      (show st1.rem = k.length :: k ++ (le4 bits ++ ys) from hAr)
      hk1 hk2 (by omega)
    obtain ⟨st3, hC, hCr⟩ := readU_spec4 hBr (by rw [validVal] at hv; omega)
    refine ⟨st3, ?_, hCr⟩
    rw [read, hA]
    simp only
    rw [if_neg (by omega), hB]
    simp only
    rw [if_neg (by omega), if_neg (by omega), if_neg (by omega), if_pos (by omega), hC]
    simp only [hcstr]
  | vstr s =>
    obtain ⟨hs1, hs2⟩ := hv
    have hsmod : s.length % 256 = s.length := by omega
    rw [entryBytes] at h
    simp only [var.type, valBytes] at h
    rw [if_neg (by omega), if_neg hkc, hmod, hsmod] at h
    rw [show (4 : Nat) :: k.length :: k ++ (s.length :: s) ++ ys
        = 4 :: k.length :: (k ++ (s.length :: s ++ ys)) from by simp] at h
    obtain ⟨st1, hA, hAr⟩ := readI_spec1 h (by omega)
    obtain ⟨st2, hB, hBr⟩ := read_str1_spec 64
      (show st1.rem = k.length :: k ++ (s.length :: s ++ ys) from hAr)
      hk1 hk2 (by omega)
    obtain ⟨st3, hC, hCr⟩ := read_str1_spec 255
      (show st2.rem = s.length :: s ++ ys from hBr) hs1 hs2 (by omega)
    refine ⟨st3, ?_, hCr⟩
    rw [read, hA]
    simp only
    rw [if_neg (by omega), hB]
    simp only
    rw [if_neg (by omega), if_neg (by omega), if_neg (by omega), if_neg (by omega),
      hC]
    simp only
    rw [if_neg (by omega)]
    simp only [hcstr]

/-- Reading back a written Property table from an all-smaller accumulated
prefix rebuilds exactly the concatenation. -/
theorem read_attr_spec (props : Property) :
    ∀ (acc : Property) (st : RdSt) (ys : List Nat),
      (∀ e ∈ props, validName64 e.1 ∧ validVal e.2) →
      keysSorted (acc ++ props) →
      st.rem = write props ++ ys →
      ∃ st2 : RdSt, read_attr props.length st acc = (true, st2, acc ++ props) ∧
        st2.rem = ys := by
  induction props with
  | nil =>
    intro acc st ys _ _ h
    rw [write] at h
    refine ⟨st, ?_, by simpa using h⟩
    rw [List.length_nil, read_attr, List.append_nil]
  | cons e rest ih =>
    intro acc st ys hvalid hsorted h
    obtain ⟨k, v⟩ := e
    rw [write, List.append_assoc] at h
    have hv := hvalid (k, v) (by simp)
    dsimp only at hv
    obtain ⟨st1, hA, hAr⟩ := read_spec acc hv.1 hv.2 h
    have hall : ∀ e2 ∈ acc, strLt e2.1 k = true := by
      intro e2 he2
      exact (List.pairwise_append.mp hsorted).2.2 e2 he2 (k, v) (by simp)
    have hset : acc.set (some k) v = acc ++ [(k, v)] := by
      rw [Pset_valid hv.1.1 hv.1.2.1 hv.2]
      exact minsert_append v hall
    have hsorted2 : keysSorted ((acc ++ [(k, v)]) ++ rest) := by
      rw [List.append_assoc]
      exact hsorted
    obtain ⟨st2, hB, hBr⟩ := ih (acc ++ [(k, v)]) st1 ys
      (fun e2 he2 => hvalid e2 (List.mem_cons_of_mem _ he2)) hsorted2 hAr
    refine ⟨st2, ?_, hBr⟩
    rw [List.length_cons, read_attr, hA, hset]
    show read_attr rest.length st1 (acc ++ [(k, v)]) = (true, st2, acc ++ (k, v) :: rest)
    rw [hB, List.append_assoc]
    rfl

theorem mfind_none_of_lt {α : Type} {m : Map α} {k : Str}
    (h : ∀ e ∈ m, strLt e.1 k = true) : mfind m k = none :=
  mfind_eq_none fun e he => strLt_ne (h e he)

/-- Reading back written translation items onto an all-smaller accumulated
prefix rebuilds exactly the concatenation (an empty translation travels
through the rejected-length path and leaves the freshly inserted empty
slot). -/
theorem itemLoop_spec (items : Map Str) :
    ∀ (acc : Map Str) (st : RdSt) (ys : List Nat) (sp : Str),
      (∀ e ∈ items, validItem e) →
      keysSorted (acc ++ items) →
      st.rem = itemsBytes items ++ ys →
      ∃ (st2 : RdSt) (sp2 : Str),
        itemLoop items.length st acc sp = (false, st2, acc ++ items, sp2) ∧
        st2.rem = ys := by
  induction items with
  | nil =>
    intro acc st ys sp _ _ h
    rw [itemsBytes] at h
    refine ⟨st, sp, ?_, by simpa using h⟩
    rw [List.length_nil, itemLoop, List.append_nil]
  | cons e rest ih =>
    intro acc st ys sp hvalid hsorted h
    obtain ⟨s, t⟩ := e
    have hv := hvalid (s, t) (by simp)
    rw [validItem] at hv
    dsimp only at hv
    obtain ⟨⟨hs1, hs2, _⟩, ht1, _⟩ := hv
    rw [itemsBytes] at h
    have h2 : st.rem = int32Bytes s.length ++ s
        ++ (int32Bytes t.length ++ (t ++ (itemsBytes rest ++ ys))) := by
      rw [h]
      simp
    obtain ⟨st1, hA, hAr⟩ := read_str_spec sp h2 hs1 hs2
    have hfind : mfind acc s = none := by
      refine mfind_none_of_lt fun e2 he2 => ?_
      exact (List.pairwise_append.mp hsorted).2.2 e2 he2 (s, t) (by simp)
    have hTrs : ∃ (r : Int) (st2 : RdSt), read_str st1 [] = (r, t, st2) ∧
        st2.rem = itemsBytes rest ++ ys := by
      by_cases ht0 : t.length = 0
      · have ht : t = [] := List.length_eq_zero.mp ht0
        subst ht
        have h4 : st1.rem = int32Bytes 0 ++ (itemsBytes rest ++ ys) := by
          rw [hAr]
          norm_num
        obtain ⟨st2, hB, hBr⟩ := read_str_zero_spec [] h4
        exact ⟨0, st2, hB, hBr⟩
      · have h3 : st1.rem = int32Bytes t.length ++ t ++ (itemsBytes rest ++ ys) := by
          rw [hAr]
          simp
        obtain ⟨st2, hB, hBr⟩ := read_str_spec [] h3 (by omega) ht1
        exact ⟨(t.length : Int), st2, hB, hBr⟩
    obtain ⟨r, st2, hB, hBr⟩ := hTrs
    have hall : ∀ e2 ∈ acc, strLt e2.1 s = true := by
      intro e2 he2
      exact (List.pairwise_append.mp hsorted).2.2 e2 he2 (s, t) (by simp)
    have hsorted2 : keysSorted ((acc ++ [(s, t)]) ++ rest) := by
      rw [List.append_assoc]
      exact hsorted
    obtain ⟨st3, sp2, hC, hCr⟩ := ih (acc ++ [(s, t)]) st2 ys s
      (fun e2 he2 => hvalid e2 (List.mem_cons_of_mem _ he2)) hsorted2 hBr
    refine ⟨st3, sp2, ?_, hCr⟩
    rw [List.length_cons, itemLoop, hA]
    dsimp only
    rw [if_neg (by omega), hfind]
    dsimp only [Option.getD]
    rw [hB]
    dsimp only
    rw [minsert_append t hall, hC, List.append_assoc]
    rfl

/-- Merging valid items into a group through Group::set appends exactly
those items. -/
theorem mergeItems_spec (items : Map Str) :
    ∀ (g : Group),
      (∀ e ∈ items, validItem e) →
      keysSorted (g._map ++ items) →
      mergeItems g items = { g with _map := g._map ++ items } := by
  induction items with
  | nil =>
    intro g _ _
    rw [mergeItems, List.foldl_nil, List.append_nil]
  | cons e rest ih =>
    intro g hvalid hsorted
    obtain ⟨s, t⟩ := e
    have hv := hvalid (s, t) (by simp)
    rw [validItem] at hv
    dsimp only at hv
    obtain ⟨⟨hs1, hs2, hs3⟩, ht1, ht2⟩ := hv
    have hall : ∀ e2 ∈ g._map, strLt e2.1 s = true := by
      intro e2 he2
      exact (List.pairwise_append.mp hsorted).2.2 e2 he2 (s, t) (by simp)
    have hstep : (g.set (some (cstr s)) (some (cstr t))).1
        = { g with _map := g._map ++ [(s, t)] } := by
      rw [cstr_eq_self hs3, cstr_eq_self ht2, Group.set]
      rw [if_neg (by omega)]
      dsimp only
      rw [minsert_append t hall]
    have ih2 := ih { g with _map := g._map ++ [(s, t)] }
      (fun e2 he2 => hvalid e2 (List.mem_cons_of_mem _ he2))
      (by dsimp only; rw [List.append_assoc]; exact hsorted)
    rw [mergeItems, List.foldl_cons]
    dsimp only
    rw [hstep]
    rw [mergeItems] at ih2
    rw [ih2]
    dsimp only
    rw [List.append_assoc]
    rfl

/-- What load makes of a stored group record: the written properties and
items, with the priority re-derived from the properties. -/
def loadedGroup (e : Str × Group) : Str × Group :=
  (e.1, ⟨e.2._prop, e.2._map, prioFrom e.2._prop 100⟩)

/-- Reading back written group records appends the loaded groups to an
all-smaller map. -/
theorem groupLoop_spec (gs : Map Group) :
    ∀ (m : Map Group) (st : RdSt) (ys : List Nat) (np sp : Str),
      (∀ e ∈ gs, validName64 e.1 ∧ validGroup e.2) →
      keysSorted gs →
      (∀ e ∈ m, ∀ e2 ∈ gs, strLt e.1 e2.1 = true) →
      st.rem = groupsBytes gs ++ ys →
      ∃ st2 : RdSt, groupLoop gs.length st m false np sp
          = (.finished false, st2, m ++ gs.map loadedGroup) ∧ st2.rem = ys := by
  induction gs with
  | nil =>
    intro m st ys np sp _ _ _ h
    rw [groupsBytes] at h
    refine ⟨st, ?_, by simpa using h⟩
    rw [List.length_nil, groupLoop, List.map_nil, List.append_nil]
  | cons e rest ih =>
    intro m st ys np sp hvalid hsorted hbelow h
    obtain ⟨k, g⟩ := e
    have hv := hvalid (k, g) (by simp)
    dsimp only at hv
    obtain ⟨hkv, hgv⟩ := hv
    rw [validName64] at hkv
    obtain ⟨hk1, hk2, hk3⟩ := hkv
    rw [validGroup] at hgv
    obtain ⟨hgp, hgi⟩ := hgv
    have hgp2 := hgp
    rw [validProps] at hgp2
    obtain ⟨hps, hpl, hpe⟩ := hgp2
    have hgi2 := hgi
    rw [validItems] at hgi2
    obtain ⟨his, hil, hie⟩ := hgi2
    have hmod : k.length % 256 = k.length := by omega
    rw [groupsBytes, groupBytes, hmod] at h
    have h2 : st.rem = k.length :: (k ++ (int32Bytes g._prop.length
        ++ (int32Bytes g._map.length ++ (write g._prop
        ++ (itemsBytes g._map ++ (groupsBytes rest ++ ys)))))) := by
      rw [h]
      simp
    obtain ⟨st1, hA, hAr⟩ := readI_spec1 h2 (by omega)
    have h3 : st1.rem = k ++ (int32Bytes g._prop.length
        ++ (int32Bytes g._map.length ++ (write g._prop
        ++ (itemsBytes g._map ++ (groupsBytes rest ++ ys))))) := hAr
    obtain ⟨st2, hInto, hIr⟩ := readInto_spec np h3
    obtain ⟨st3, hB, hBr⟩ := readI_spec4 hIr (by omega) (by omega)
    obtain ⟨st4, hC, hCr⟩ := readI_spec4 hBr (by omega) (by omega)
    have hAttrCast : ((g._prop.length : Int)).toNat = g._prop.length := by omega
    have hItemCast : ((g._map.length : Int)).toNat = g._map.length := by omega
    obtain ⟨st5, hD, hDr⟩ := read_attr_spec g._prop [] st4
      (itemsBytes g._map ++ (groupsBytes rest ++ ys)) hpe (by simpa using hps) hCr
    obtain ⟨st6, sp2, hE, hEr⟩ := itemLoop_spec g._map [] st5
      (groupsBytes rest ++ ys) sp hie (by simpa using his) hDr
    have hfind : mfind m k = none :=
      mfind_none_of_lt fun e2 he2 => hbelow e2 he2 (k, g) (by simp)
    have hkmem : ∀ e2 ∈ m, strLt e2.1 k = true :=
      fun e2 he2 => hbelow e2 he2 (k, g) (by simp)
    have hsorted2 := hsorted
    rw [keysSorted, List.pairwise_cons] at hsorted2
    have hrest_below : ∀ e2 ∈ m ++ [loadedGroup (k, g)], ∀ e3 ∈ rest,
        strLt e2.1 e3.1 = true := by
      intro e2 he2 e3 he3
      rcases List.mem_append.mp he2 with h4 | h4
      · exact hbelow e2 h4 e3 (List.mem_cons_of_mem _ he3)
      · have h5 : e2 = loadedGroup (k, g) := by simpa using h4
        rw [h5]
        exact hsorted2.1 e3 he3
    obtain ⟨st7, hF, hFr⟩ := ih (m ++ [loadedGroup (k, g)]) st6 ys k sp2
      (fun e2 he2 => hvalid e2 (List.mem_cons_of_mem _ he2))
      hsorted2.2 hrest_below hEr
    refine ⟨st7, ?_, hFr⟩
    rw [List.length_cons, groupLoop, hA]
    dsimp only
    rw [if_neg (by omega)]
    rw [if_neg (show ¬((k.length : Nat) : Int) = 0 from by omega)]
    rw [show (((k.length : Nat) : Int)).toNat = k.length from by omega, hInto]
    dsimp only
    rw [hB]
    dsimp only
    rw [hC]
    dsimp only
    rw [hAttrCast, hD]
    dsimp only
    rw [hItemCast, hE]
    dsimp only
    rw [hfind]
    dsimp only [List.nil_append]
    rw [minsert_append _ hkmem]
    show groupLoop rest.length st6 (m ++ [loadedGroup (k, g)]) false k sp2 = _
    rw [hF, List.append_assoc]
    rfl

theorem strLt_nil_lt {k : Str} (h : k ≠ []) : strLt [] k = true := by
  cases k with
  | nil => exact absurd rfl h
  | cons a as => rfl

theorem keys_map_loadedGroup (l : Map Group) :
    keys (l.map loadedGroup) = keys l := by
  rw [keys, keys, List.map_map]
  congr 1

theorem mfind_map_loadedGroup (l : Map Group) (k : Str) :
    mfind (l.map loadedGroup) k
      = (mfind l k).map fun g => (⟨g._prop, g._map, prioFrom g._prop 100⟩ : Group) := by
  induction l with
  | nil => rfl
  | cons e rest ih =>
    obtain ⟨k1, g1⟩ := e
    rw [List.map_cons]
    dsimp only [loadedGroup]
    simp only [mfind]
    by_cases hk : k = k1
    · rw [if_pos hk, if_pos hk]
      rfl
    · rw [if_neg hk, if_neg hk]
      exact ih

/-- The byte-level effect of save followed by load into a fresh Document:
load succeeds, the document properties are rebuilt identically, the
default group's translations are merged into the fresh default group
(dropping its properties), and every named group is inserted with its
properties, its translations, and a priority re-derived from them. -/
theorem load_save_eq (d : Text) (hv : ValidDoc d) :
    ∃ (g0 : Group) (named : Map Group), d._map = ([], g0) :: named ∧
      (∀ e ∈ named, e.1 ≠ ([] : Str)) ∧
      CkText.load freshText (save d) []
        = (true, ⟨d._prop, ([], ⟨[], g0._map, 100⟩) :: named.map loadedGroup, []⟩) := by
  obtain ⟨hms, hml, hmem, hdp, hme⟩ := hv
  obtain ⟨g0, named, hm, hrest⟩ := head_default hms hmem
  refine ⟨g0, named, hm, hrest, ?_⟩
  have hdp2 := hdp
  rw [validProps] at hdp2
  obtain ⟨hdps, hdpl, hdpe⟩ := hdp2
  have hg0 : validGroup g0 := (hme ([], g0) (by rw [hm]; simp)).2
  rw [validGroup] at hg0
  obtain ⟨hg0p, hg0i⟩ := hg0
  have hg0p2 := hg0p
  rw [validProps] at hg0p2
  obtain ⟨hg0ps, hg0pl, hg0pe⟩ := hg0p2
  have hg0i2 := hg0i
  rw [validItems] at hg0i2
  obtain ⟨hg0is, hg0il, hg0ie⟩ := hg0i2
  have h0 : (⟨save d, 0⟩ : RdSt).rem = save d := by
    rw [RdSt.rem]
    simp
  by_cases hE : d.empty
  · -- the empty() save path: zero groups are written
    have hlen : d._map.length < 2 := by
      rw [Text.empty, Bool.and_eq_true, decide_eq_true_eq] at hE
      exact hE.1
    have hnamed : named = [] := by
      rw [hm] at hlen
      rw [List.length_cons] at hlen
      exact List.length_eq_zero.mp (by omega)
    have hg0m : g0._map = [] := by
      rw [Text.empty, Bool.and_eq_true] at hE
      have h2 := hE.2
      rw [hm] at h2
      simpa using h2
    subst hnamed
    have hshape : save d = [67, 75, 84] ++ (0 :: (int32Bytes d._prop.length
        ++ (int32Bytes 0 ++ (write d._prop ++ [])))) := by
      rw [save, if_pos hE]
      simp
    have h1 := h0.trans hshape
    obtain ⟨st1, hT, hTr⟩ := @readN_spec ⟨save d, 0⟩ [67, 75, 84] _ h1
    obtain ⟨st2, hF, hFr⟩ := @readN_spec st1 [0] _ hTr
    obtain ⟨stC, hC, hCr⟩ := readI_spec4 hFr (by omega) (by omega)
    obtain ⟨stD, hD, hDr⟩ := readI_spec4 hCr (by omega) (by omega)
    obtain ⟨stE, hA2, hA2r⟩ := read_attr_spec d._prop [] stD [] hdpe
      (by simpa using hdps) hDr
    have hT3 : (⟨save d, 0⟩ : RdSt).readN 3 = ([67, 75, 84], st1) := hT
    have hF1 : st1.readN 1 = ([0], st2) := hF
    have hLE : loadEx freshText (save d) []
        = (.ok, ⟨d._prop, [([], ⟨[], g0._map, 100⟩)], []⟩) := by
      rw [loadEx, hT3]
      dsimp only
      rw [hF1]
      dsimp only
      rw [if_neg (by simp)]
      rw [if_neg (by decide)]
      rw [hC]
      dsimp only
      rw [hD]
      dsimp only
      rw [show ((d._prop.length : Nat) : Int).toNat = d._prop.length from by omega]
      rw [hA2]
      dsimp only
      rw [show ((0 : Int)).toNat = 0 from rfl]
      rw [groupLoop]
      rw [hg0m]
      rfl
    rw [CkText.load, hLE]
    rfl
  · -- the non-empty save path: every group record is written
    have hshape : save d = [67, 75, 84] ++ (0 :: (int32Bytes d._prop.length
        ++ (int32Bytes d._map.length ++ (write d._prop
        ++ (groupBytes [] g0 ++ (groupsBytes named ++ [])))))) := by
      rw [save, if_neg hE]
      rw [hm]
      rw [groupsBytes]
      simp
    have h1 := h0.trans hshape
    obtain ⟨st1, hT, hTr⟩ := @readN_spec ⟨save d, 0⟩ [67, 75, 84] _ h1
    obtain ⟨st2, hF, hFr⟩ := @readN_spec st1 [0] _ hTr
    obtain ⟨stC, hC, hCr⟩ := readI_spec4 hFr (by omega) (by omega)
    obtain ⟨stD, hD, hDr⟩ := readI_spec4 hCr (by omega) (by omega)
    obtain ⟨stE, hA2, hA2r⟩ := read_attr_spec d._prop [] stD
      (groupBytes [] g0 ++ (groupsBytes named ++ [])) hdpe
      (by simpa using hdps) hDr
    -- the default-group record
    have hgb : stE.rem = 0 :: (int32Bytes g0._prop.length
        ++ (int32Bytes g0._map.length ++ (write g0._prop
        ++ (itemsBytes g0._map ++ (groupsBytes named ++ []))))) := by
      rw [hA2r, groupBytes]
      simp
    obtain ⟨stG1, hG1, hG1r⟩ := readI_spec1 hgb (by omega)
    obtain ⟨stG2, hG2, hG2r⟩ := readI_spec4 hG1r (by omega) (by omega)
    obtain ⟨stG3, hG3, hG3r⟩ := readI_spec4 hG2r (by omega) (by omega)
    obtain ⟨stG4, hG4, hG4r⟩ := read_attr_spec g0._prop [] stG3
      (itemsBytes g0._map ++ (groupsBytes named ++ [])) hg0pe
      (by simpa using hg0ps) hG3r
    obtain ⟨stG5, spX, hG5, hG5r⟩ := itemLoop_spec g0._map [] stG4
      (groupsBytes named ++ []) [] hg0ie (by simpa using hg0is) hG4r
    have hmerge : mergeItems emptyGroup g0._map
        = (⟨[], g0._map, 100⟩ : Group) := by
      have := mergeItems_spec g0._map emptyGroup hg0ie (by simpa using hg0is)
      rw [this]
      rfl
    -- the named-group records
    have hnvalid : ∀ e ∈ named, validName64 e.1 ∧ validGroup e.2 := by
      intro e he
      have h2 := hme e (by rw [hm]; exact List.mem_cons_of_mem _ he)
      rcases h2.1 with h3 | h3
      · exact absurd h3 (hrest e he)
      · exact ⟨h3, h2.2⟩
    have hnsorted : keysSorted named := by
      rw [hm, keysSorted, List.pairwise_cons] at hms
      exact hms.2
    have hnbelow : ∀ e ∈ [(([] : Str), (⟨[], g0._map, 100⟩ : Group))],
        ∀ e2 ∈ named, strLt e.1 e2.1 = true := by
      intro e he e2 he2
      have h3 : e = ([], (⟨[], g0._map, 100⟩ : Group)) := by simpa using he
      rw [h3]
      exact strLt_nil_lt (hrest e2 he2)
    obtain ⟨stG6, hG6, hG6r⟩ := groupLoop_spec named
      [(([] : Str), (⟨[], g0._map, 100⟩ : Group))] stG5 [] [] spX
      hnvalid hnsorted hnbelow hG5r
    have hT3 : (⟨save d, 0⟩ : RdSt).readN 3 = ([67, 75, 84], st1) := hT
    have hF1 : st1.readN 1 = ([0], st2) := hF
    have hLE : loadEx freshText (save d) []
        = (.ok, ⟨d._prop,
            ([], ⟨[], g0._map, 100⟩) :: named.map loadedGroup, []⟩) := by
      rw [loadEx, hT3]
      dsimp only
      rw [hF1]
      dsimp only
      rw [if_neg (by simp)]
      rw [if_neg (by decide)]
      rw [hC]
      dsimp only
      rw [hD]
      dsimp only
      rw [show ((d._prop.length : Nat) : Int).toNat = d._prop.length from by omega]
      rw [hA2]
      dsimp only
      rw [show ((d._map.length : Nat) : Int).toNat = d._map.length from by omega]
      rw [hm, List.length_cons, groupLoop, hG1]
      dsimp only
      rw [if_neg (by omega)]
      rw [if_pos (show ((0 : Nat) : Int) = 0 from by omega)]
      dsimp only
      rw [hG2]
      dsimp only
      rw [hG3]
      dsimp only
      rw [show ((g0._prop.length : Nat) : Int).toNat = g0._prop.length from by omega]
      rw [hG4]
      dsimp only
      rw [show ((g0._map.length : Nat) : Int).toNat = g0._map.length from by omega]
      rw [hG5]
      dsimp only
      rw [show mfind freshText._map ([] : Str) = some emptyGroup from rfl]
      dsimp only [List.nil_append]
      rw [hmerge]
      rw [show minsert ([] : Str) (⟨[], g0._map, 100⟩ : Group) freshText._map
          = [(([] : Str), (⟨[], g0._map, 100⟩ : Group))] from rfl]
      rw [show (false || false) = false from rfl, hG6]
      rfl
    rw [CkText.load, hLE]

theorem Text_load_eq (that : Text) (data dec : List Nat) :
    Text.load that data dec
      = ((CkText.load that data dec).1,
          (CkText.load that data dec).2.update_sorted) := rfl

instance validValDec (v : var) : Decidable (validVal v) :=
  match v with
  | .vbool _ => .isTrue trivial
  | .vint _ => inferInstanceAs (Decidable (_ ∧ _))
  | .vfloat _ => inferInstanceAs (Decidable (_ < _))
  | .vstr _ => inferInstanceAs (Decidable (_ ∧ _))

instance validName64Dec (k : Str) : Decidable (validName64 k) :=
  inferInstanceAs (Decidable (_ ∧ _ ∧ _))

instance validPropsDec (p : Property) : Decidable (validProps p) :=
  inferInstanceAs (Decidable (_ ∧ _ ∧ _))

instance validItemDec (e : Str × Str) : Decidable (validItem e) :=
  inferInstanceAs (Decidable (_ ∧ _))

instance validItemsDec (m : Map Str) : Decidable (validItems m) :=
  inferInstanceAs (Decidable (_ ∧ _ ∧ _))

instance validGroupDec (g : Group) : Decidable (validGroup g) :=
  inferInstanceAs (Decidable (_ ∧ _))

instance ValidDocDec (d : Text) : Decidable (ValidDoc d) :=
  inferInstanceAs (Decidable (_ ∧ _ ∧ _ ∧ _ ∧ _))

set_option maxHeartbeats 2000000 in
/-- C3 amended: for every Document built from valid (in-bounds) groups,
properties and translations, save followed by load into a fresh Document
succeeds and yields a Document with the same group names, the same
translation pairs in every group, the same property values in every named
group, and the same document properties; the default group's own property
table, however, is dropped (the loaded default record is merged into the
fresh document's default group and its properties are discarded — also,
when the document is empty, not even written). -/
theorem c3_roundtrip_amended (d : Text) (hv : ValidDoc d) :
    (Text.load freshText (save d) []).1 = true ∧
    keys (Text.load freshText (save d) []).2._map = keys d._map ∧
    (∀ k, k ≠ ([] : Str) →
      (mfind (Text.load freshText (save d) []).2._map k).map Group._map
        = (mfind d._map k).map Group._map ∧
      (mfind (Text.load freshText (save d) []).2._map k).map Group._prop
        = (mfind d._map k).map Group._prop) ∧
    (mfind (Text.load freshText (save d) []).2._map []).map Group._map
      = (mfind d._map []).map Group._map ∧
    (mfind (Text.load freshText (save d) []).2._map []).map Group._prop
      = some [] ∧
    (Text.load freshText (save d) []).2._prop = d._prop := by
  obtain ⟨g0, named, hm, hrest, hload⟩ := load_save_eq d hv
  have h1 : (Text.load freshText (save d) []).1 = true := by
    rw [Text_load_eq, hload]
  have hmap2 : (Text.load freshText (save d) []).2._map
      = ([], (⟨[], g0._map, 100⟩ : Group)) :: named.map loadedGroup := by
    rw [Text_load_eq, hload, Text.update_sorted]
  have hprop2 : (Text.load freshText (save d) []).2._prop = d._prop := by
    rw [Text_load_eq, hload, Text.update_sorted]
  refine ⟨h1, ?_, ?_, ?_, ?_, hprop2⟩
  · rw [hmap2, hm, keys, keys, List.map_cons, List.map_cons]
    congr 1
    exact keys_map_loadedGroup named
  · intro k hk
    rw [hmap2, hm]
    simp only [mfind]
    rw [if_neg hk, if_neg hk, mfind_map_loadedGroup, Option.map_map, Option.map_map]
    exact ⟨rfl, rfl⟩
  · rw [hmap2, hm]
    simp only [mfind, if_pos rfl]
    rfl
  · rw [hmap2]
    simp only [mfind, if_pos rfl]
    rfl

/-- A concrete valid document for the round-trip witness: one document
property, a default group with a translation, and a named group with a
priority property, a translation, and an empty translation. -/
def c3docW : Text :=
  ⟨[([104], .vstr [122, 123])],
    [([], ⟨[], [([97], [98])], 100⟩),
      ([110], ⟨[(priorityKey, .vint 200)], [([119], []), ([120], [121])], 200⟩)],
    []⟩

/-- Witness for c3_roundtrip_amended at c3docW. -/
theorem c3_roundtrip_amended_witness :
    (Text.load freshText (save c3docW) []).1 = true ∧
    keys (Text.load freshText (save c3docW) []).2._map = keys c3docW._map ∧
    (∀ k, k ≠ ([] : Str) →
      (mfind (Text.load freshText (save c3docW) []).2._map k).map Group._map
        = (mfind c3docW._map k).map Group._map ∧
      (mfind (Text.load freshText (save c3docW) []).2._map k).map Group._prop
        = (mfind c3docW._map k).map Group._prop) ∧
    (mfind (Text.load freshText (save c3docW) []).2._map []).map Group._map
      = (mfind c3docW._map []).map Group._map ∧
    (mfind (Text.load freshText (save c3docW) []).2._map []).map Group._prop
      = some [] ∧
    (Text.load freshText (save c3docW) []).2._prop = c3docW._prop :=
  c3_roundtrip_amended c3docW (by decide)

end CkText

